import Mathlib

/-!
Verification development for the Zotero result-fusion launcher script
(`Contents/Scripts/default.py`).  The Python source is shallowly embedded:

* strings are Lean `String`s and all Python string operations used by the
  script (`str.strip`, slicing, `startswith`, `str.join`, `pathlib` stem/name,
  percent decoding, lower-casing) are re-implemented structurally over the
  character list so that every definition is executable and kernel-reducible;
* the similarity score (`fusion_score`, a Python float used only through
  comparisons and fixed-point formatting) is modelled as `Rat`;
* the filesystem, the sqlite database, the semantic-search collaborator and
  the `fzf` helper subprocess are modelled as explicit environments passed in;
* Python exceptions are modelled with `Except String`: a `.error` value is an
  exception propagating out of the modelled function;
* observable side effects of the metadata lookup (snapshot creation, opening
  a database file, unlinking the temporary snapshot) are recorded in an
  explicit effect trace.
-/

namespace ZSearch

/-! ## Character-level string helpers (kernel-reducible) -/

/-- Python whitespace test restricted to the ASCII whitespace characters
that `Char.isWhitespace` knows; models `str.strip()`'s default set. -/
def pyWs (c : Char) : Bool := c = ' ' ∨ c = '\t' ∨ c = '\n' ∨ c = '\r'

/-- Drop leading and trailing whitespace of a character list. -/
def trimChars (cs : List Char) : List Char :=
  ((cs.dropWhile pyWs).reverse.dropWhile pyWs).reverse

/-- Model of Python `str.strip()`. -/
def pyStrip (s : String) : String := ⟨trimChars s.data⟩

/-- `listPre p s` : the list `p` is an initial segment of `s`. -/
def listPre : List Char → List Char → Bool
  | [], _ => true
  | _ :: _, [] => false
  | a :: as, b :: bs => a = b && listPre as bs

/-- Model of Python `str.startswith`. -/
def strStarts (s p : String) : Bool := listPre p.data s.data

/-- Model of Python slicing `s[n:]` (code-point based, as in Python). -/
def strDrop (s : String) (n : Nat) : String := ⟨s.data.drop n⟩

/-- Number of code points of `s` (Python `len`). -/
def strLen (s : String) : Nat := s.data.length

/-- Model of Python `sep.join(parts)`. -/
def joinWith (sep : String) : List String → String
  | [] => ""
  | [s] => s
  | s :: rest => s ++ sep ++ joinWith sep rest

/-- Split a character list at every occurrence of `c` (Python `str.split(c)`);
`cur` is the reversed chunk read so far. -/
def splitCharAux (c : Char) : List Char → List Char → List (List Char)
  | [], cur => [cur.reverse]
  | x :: xs, cur =>
      if x = c then cur.reverse :: splitCharAux c xs []
      else splitCharAux c xs (x :: cur)

/-- Model of Python `str.lower()` (ASCII letters). -/
def strLower (s : String) : String := ⟨s.data.map Char.toLower⟩

/-! ## `pathlib.PurePosixPath` name / stem / suffix -/

/-- Normalized path components, as `pathlib` computes them: split on `/`,
drop empty components and `"."` components. -/
def pyPathParts (s : String) : List String :=
  ((splitCharAux '/' s.data []).map (fun cs => (⟨cs⟩ : String))).filter
    (fun c => c ≠ "" ∧ c ≠ ".")

/-- Model of `pathlib.Path(s).name` (final component; empty for a bare root). -/
def pyPathName (s : String) : String := ((pyPathParts s).getLast?).getD ""

/-- Index of the last `'.'` in a character list, if any. -/
def lastDotPos (cs : List Char) : Option Nat :=
  ((List.range cs.length).filter (fun i => cs.getD i ' ' = '.')).getLast?

/-- Model of `pathlib.Path(s).stem`: the name with its last suffix removed,
where a suffix needs an interior dot (`0 < i < len - 1`). -/
def pyStem (s : String) : String :=
  let n := (pyPathName s).data
  match lastDotPos n with
  | some i => if 0 < i ∧ i < n.length - 1 then ⟨n.take i⟩ else ⟨n⟩
  | none => ⟨n⟩

/-- Model of `pathlib.Path(s).suffix`. -/
def pySuffix (s : String) : String :=
  let n := (pyPathName s).data
  match lastDotPos n with
  | some i => if 0 < i ∧ i < n.length - 1 then ⟨n.drop i⟩ else ""
  | none => ""

/-- Path join used by the script (`dir / child` in `pathlib`). -/
def pjoin (a b : String) : String := a ++ "/" ++ b

/-! ## Percent decoding (`urllib.parse.unquote`) -/

/-- Hexadecimal digit value. -/
def hexVal (c : Char) : Option Nat :=
  if '0' ≤ c ∧ c ≤ '9' then some (c.toNat - '0'.toNat)
  else if 'a' ≤ c ∧ c ≤ 'f' then some (c.toNat - 'a'.toNat + 10)
  else if 'A' ≤ c ∧ c ≤ 'F' then some (c.toNat - 'A'.toNat + 10)
  else none

/-- Character-level model of `urllib.parse.unquote`: each valid `%XY` pair
becomes the character with code `16*X + Y`; invalid escapes stay verbatim.
(Multi-byte UTF-8 escapes are approximated one byte per character.) -/
def pctDecodeF : Nat → List Char → List Char
  | 0, cs => cs
  | _ + 1, [] => []
  | fuel + 1, c :: rest =>
      if c = '%' then
        match rest with
        | a :: b :: rest2 =>
            match hexVal a, hexVal b with
            | some x, some y => Char.ofNat (16 * x + y) :: pctDecodeF fuel rest2
            | _, _ => c :: pctDecodeF fuel rest
        | _ => c :: pctDecodeF fuel rest
      else c :: pctDecodeF fuel rest

/-- Entry point: every step consumes at least one character, so fuel equal to
the input length is never exhausted. -/
def pctDecode (cs : List Char) : List Char := pctDecodeF cs.length cs

/-! ## Data model -/

/-- One raw similarity hit from the search collaborator (duck-typed
`source_path` / `doc_id` / `title` / `fusion_score` attributes). -/
structure Hit where
  sourcePath : String
  docId : String
  title : String
  fusionScore : Rat
deriving DecidableEq

/-- One emitted display item (LaunchBar JSON dict).  Optional fields model
keys that the script only sometimes sets; `badge` is the error marker. -/
structure Item where
  title : String
  subtitle : String
  badge : Option String := none
  path : Option String := none
  quickLookURL : Option String := none
  url : Option String := none
  label : Option String := none
  alwaysShowsSubtitle : Bool := false
deriving DecidableEq

/-- `_item_error`. -/
def itemError (title subtitle : String) : Item :=
  { title := title, subtitle := subtitle, badge := some "Error" }

/-- `_item_info`. -/
def itemInfo (title subtitle : String) : Item :=
  { title := title, subtitle := subtitle }

/-- Sidecar metadata parsed by `_parse_md_meta` (Python dict with up to the
three keys `attachment_key`, `source_pdf`, `zotero_link`). -/
structure MdMeta where
  attachmentKey : Option String := none
  sourcePdf : Option String := none
  zoteroLink : Option String := none
deriving DecidableEq

/-- Number of fields present (`len(output)` on the Python dict). -/
def mdCount (m : MdMeta) : Nat :=
  (if m.attachmentKey.isSome then 1 else 0) +
  (if m.sourcePdf.isSome then 1 else 0) +
  (if m.zoteroLink.isSome then 1 else 0)

/-- One joined metadata record built by `_load_attachment_meta`. -/
structure MetaRec where
  parent_title : String
  authors : String
  date : String
  publication : String
  pdf_path : String
deriving DecidableEq

/-- One row returned by the batched SQL query (all columns COALESCEd to
strings already, as in the query text). -/
structure SqlRow where
  attachment_key : String
  parent_title : String
  authors : String
  date : String
  publication : String
  raw_path : String
deriving DecidableEq

/-- Abstract filesystem used by the path resolver. -/
structure FS where
  pathExists : String → Bool
  isDir : String → Bool
  isFile : String → Bool
  listDir : String → List String

/-! ## Insertion-ordered dictionaries (Python `dict`) -/

/-- Python `d[k] = v`: replace in place if the key exists, else append. -/
def dictUpdate {α : Type} : List (String × α) → String → α → List (String × α)
  | [], k, v => [(k, v)]
  | (k0, v0) :: rest, k, v =>
      if k0 = k then (k, v) :: rest else (k0, v0) :: dictUpdate rest k v

/-- Python `d.get(k)`. -/
def dictGet {α : Type} : List (String × α) → String → Option α
  | [], _ => none
  | (k0, v0) :: rest, k => if k0 = k then some v0 else dictGet rest k

/-! ## Result fusion: deduplication, ranking, truncation
(`_build_semantic_items`, lines 461-476) -/

/-- Deduplication key: `str(result.source_path).strip()`. -/
def hitKey (r : Hit) : String := pyStrip r.sourcePath

/-- One iteration of the `best_by_source` loop: skip hits with an empty
(stripped) source path; otherwise keep the stored hit unless the new one has
a strictly greater `fusion_score`. -/
def bestStep (acc : List (String × Hit)) (r : Hit) : List (String × Hit) :=
  if hitKey r = "" then acc
  else
    match dictGet acc (hitKey r) with
    | none => dictUpdate acc (hitKey r) r
    | some cur =>
        if cur.fusionScore < r.fusionScore then dictUpdate acc (hitKey r) r else acc

/-- The `best_by_source` dict after the whole loop. -/
def bestBySource (hits : List Hit) : List (String × Hit) := hits.foldl bestStep []

/-- Stable descending insertion by `fusionScore`: an element is placed before
the first strictly smaller one, so earlier elements precede equal-scored later
ones — the same result as Python's stable `sorted(..., reverse=True)`. -/
def insertDesc (r : Hit) : List Hit → List Hit
  | [] => [r]
  | x :: xs =>
      if x.fusionScore ≤ r.fusionScore then r :: x :: xs else x :: insertDesc r xs

/-- Stable sort by `fusionScore` descending. -/
def sortDesc (l : List Hit) : List Hit := l.foldr insertDesc []

/-- `unique_results`: dict values in insertion order, sorted by score
descending, truncated to `SEMANTIC_MAX_DOCS` (passed in as `cap`). -/
def uniqueResults (hits : List Hit) (cap : Nat) : List Hit :=
  (sortDesc ((bestBySource hits).map Prod.snd)).take cap

/-- Specification-side helper: the first hit of a list attaining the maximum
`fusionScore` (ties resolved to the earliest). -/
def firstMax : List Hit → Option Hit
  | [] => none
  | h :: t =>
      match firstMax t with
      | none => some h
      | some b => if h.fusionScore < b.fusionScore then some b else some h

/-- Combine a stored best with the best of a later segment: the later one
wins only if strictly greater (mirrors the update rule of `bestStep`). -/
def mergeBest : Option Hit → Option Hit → Option Hit
  | none, o => o
  | some b, none => some b
  | some b, some c => if b.fusionScore < c.fusionScore then some c else some b

/-! ## Sidecar parser (`_parse_md_meta`, lines 395-420) -/

/-- One labeled-field regex `^- <Label>:\s*(.+)\s*$` applied to a stripped
line, followed by the caller's `.strip()` of the captured group. -/
def matchLabeled (label : String) (line : String) : Option String :=
  let l := pyStrip line
  if strStarts l label then
    let rest := strDrop l (strLen label)
    if pyStrip rest = "" then none else some (pyStrip rest)
  else none

/-- Apply the three field patterns to one line (later matches overwrite). -/
def parseStep (m : MdMeta) (line : String) : MdMeta :=
  let m1 := match matchLabeled "- Attachment Key:" line with
            | some v => { m with attachmentKey := some v }
            | none => m
  let m2 := match matchLabeled "- Source PDF:" line with
            | some v => { m1 with sourcePdf := some v }
            | none => m1
  match matchLabeled "- Zotero Link:" line with
  | some v => { m2 with zoteroLink := some v }
  | none => m2

/-- The scan loop: process lines in order, stop right after the line that
completes all three fields. -/
def parseGo : MdMeta → List String → MdMeta
  | m, [] => m
  | m, l :: ls =>
      let m1 := parseStep m l
      if mdCount m1 = 3 then m1 else parseGo m1 ls

/-- `_parse_md_meta` on the file's lines (`lines[:40]` scanned). -/
def parseMdMeta (lines : List String) : MdMeta := parseGo {} (lines.take 40)

/-- Sidecar lookup through the environment: `none` models a missing file or
an `OSError` while reading (both yield the empty dict in the source). -/
def mdOf (sidecar : String → Option (List String)) (p : String) : MdMeta :=
  match sidecar p with
  | none => {}
  | some ls => parseMdMeta ls

/-! ## Path resolver (`_resolve_pdf_path`, lines 291-322) -/

/-- `raw[len("storage:"):].lstrip("/")`. -/
def storageRel (raw : String) : String :=
  ⟨(strDrop raw 8).data.dropWhile (fun c => c = '/')⟩

/-- Insertion into an ascending list of strings (code-point order). -/
def insertStr (s : String) : List String → List String
  | [] => [s]
  | x :: xs => if s.data ≤ x.data then s :: x :: xs else x :: insertStr s xs

/-- `sorted(...)` over strings. -/
def sortStr (l : List String) : List String := l.foldr insertStr []

/-- The directory scan `sorted(p for p in dir.iterdir() if p.is_file() and
p.suffix.lower() == ".pdf")`. -/
def pdfScan (fs : FS) (dir : String) : List String :=
  sortStr (((fs.listDir dir).map (fun nm => pjoin dir nm)).filter
    (fun p => fs.isFile p ∧ strLower (pySuffix p) = ".pdf"))

/-- `re.sub(r"^file:(//)?", "", raw)` followed by `unquote` and the
leading-slash normalization. -/
def uriNormalize (raw : String) : String :=
  let stripped := if strStarts raw "file://" then strDrop raw 7
                  else if strStarts raw "file:" then strDrop raw 5
                  else raw
  let fp : String := ⟨pctDecode stripped.data⟩
  if fp ≠ "" ∧ ¬ strStarts fp "/" then "/" ++ fp else fp

/-- `_resolve_pdf_path`. -/
def resolvePdfPath (fs : FS) (storageDir : String) (rawPathField : String)
    (attachmentKey : String) : String :=
  let raw := pyStrip rawPathField
  if strStarts raw "storage:" then
    let rel := storageRel raw
    let attachmentDir := pjoin storageDir attachmentKey
    if rel ≠ "" ∧ fs.pathExists (pjoin attachmentDir rel) then
      pjoin attachmentDir rel
    else if fs.isDir attachmentDir then
      match pdfScan fs attachmentDir with
      | [] => ""
      | p :: _ => p
    else ""
  else if strStarts raw "file:" then uriNormalize raw
  else if raw ≠ "" then raw
  else
    let attachmentDir := pjoin storageDir attachmentKey
    if fs.isDir attachmentDir then
      match pdfScan fs attachmentDir with
      | [] => ""
      | p :: _ => p
    else ""

/-! ## Snapshot creation (`_create_db_snapshot`, lines 263-288) -/

/-- Outcome environment for one `_create_db_snapshot` call: the `mkstemp`
name, whether the sqlite `backup` API succeeds, whether the raw
`shutil.copy2` fallback succeeds, the copy failure message, and whether the
temporary file exists at cleanup time. -/
structure SnapEnv where
  tmpPath : String
  backupOk : Bool
  copyOk : Bool
  copyErrMsg : String
  tmpExists : Bool
deriving DecidableEq

/-- `_create_db_snapshot`: first component is the returned path or the raised
`RuntimeError` message; second component records whether the partially
created temporary file was unlinked during the call. -/
def createDbSnapshot (e : SnapEnv) : Except String String × Bool :=
  if e.backupOk then (.ok e.tmpPath, false)
  else if e.copyOk then (.ok e.tmpPath, false)
  else (.error ("無法建立 Zotero 資料庫快照：" ++ e.copyErrMsg), e.tmpExists)

/-! ## Metadata joiner (`_load_attachment_meta`, lines 325-392) -/

/-- Observable side effects of `_load_attachment_meta`. -/
inductive Eff where
  | snapCreate (tmp : String)
  | openDb (path : String)
  | unlink (path : String)
deriving DecidableEq

/-- Build the `output` dict from the query rows: skip rows with an empty
stripped attachment key, strip every text column, resolve the pdf path. -/
def buildMetaOutput (fs : FS) (storageDir : String) (rows : List SqlRow) :
    List (String × MetaRec) :=
  rows.foldl
    (fun acc row =>
      let key := pyStrip row.attachment_key
      if key = "" then acc
      else
        dictUpdate acc key
          { parent_title := pyStrip row.parent_title
            authors := pyStrip row.authors
            date := pyStrip row.date
            publication := pyStrip row.publication
            pdf_path := resolvePdfPath fs storageDir (pyStrip row.raw_path) key })
    []

/-- `_load_attachment_meta`.  `runQuery` models `conn.execute(sql, keys)` on
the given database path: `.error` is a raised `sqlite3.Error`.  The effect
trace records snapshot creation, which database file is opened, and the
`finally`-block unlink; an exception (`.error` result) models the Python
exception propagating to the caller after the `finally` block ran. -/
def loadAttachmentMeta (se : SnapEnv)
    (runQuery : String → List String → Except String (List SqlRow))
    (fs : FS) (storageDir : String) (attachmentKeys : List String) :
    Except String (List (String × MetaRec)) × List Eff :=
  let keys := attachmentKeys.filter (fun k => k ≠ "")
  if keys.isEmpty then (.ok [], [])
  else
    match createDbSnapshot se with
    | (.error e, _) => (.error e, [.snapCreate se.tmpPath])
    | (.ok snapshot, _) =>
        match runQuery snapshot keys with
        | .error e =>
            (.error e, [.snapCreate snapshot, .openDb snapshot, .unlink snapshot])
        | .ok rows =>
            (.ok (buildMetaOutput fs storageDir rows),
             [.snapCreate snapshot, .openDb snapshot, .unlink snapshot])

/-! ## fzf fallback mode (`_run_fzf_mode`, lines 228-260) -/

/-- Outcome of the helper-subprocess interaction, abstracting the helper
script's existence, the process result and the JSON parse of its stdout. -/
inductive FzfOut where
  | helperMissing (helperPath : String)
  | procFail (err : String)
  | emptyOutput
  | badJson
  | notArray
  | parsed (items : List Item)
deriving DecidableEq

/-- `_run_fzf_mode` as a function of the query and the subprocess outcome. -/
def runFzfMode (q : String) (o : FzfOut) : List Item :=
  match o with
  | .helperMissing hp => [itemError "找不到 fzf helper" ("缺少腳本：" ++ hp)]
  | .procFail err => [itemError "fzf 搜尋失敗" err]
  | .emptyOutput => [itemInfo "No matches" q]
  | .badJson => [itemError "fzf 回傳格式錯誤" "helper script 輸出不是合法 JSON。"]
  | .notArray => [itemError "fzf 回傳格式錯誤" "helper script 輸出不是陣列。"]
  | .parsed items => items

/-- The `except` branch of the primary search call (lines 449-459): under a
local embedding backend, run the fzf fallback and prepend the degradation
disclosure unless the fallback itself reported an error item; in every other
case return the single primary-failure error item. -/
def semanticFallback (useLocal : Bool) (excMsg : String)
    (fallbackItems : List Item) : List Item :=
  if useLocal then
    if fallbackItems.any (fun it => it.badge == some "Error") then
      [itemError "搜尋失敗" excMsg]
    else
      itemInfo "本地語義搜尋暫時不可用，已改用本地關鍵字搜尋。" excMsg :: fallbackItems
  else [itemError "搜尋失敗" excMsg]

/-! ## Item assembly (`_build_semantic_items`, lines 481-554) -/

/-- Zero-padding to four digits. -/
def pad4 (n : Nat) : String :=
  let s := toString n
  ⟨List.replicate (4 - s.data.length) '0'⟩ ++ s

/-- Fixed four-decimal rendering of the score, modelling `f"{score:.4f}"`
(rounding half away from zero on the rational model of the float). -/
def fmt4 (q : Rat) : String :=
  let a : Rat := if q < 0 then -q else q
  let r : Rat := a * 10000 + 1 / 2
  let m : Nat := (r.num / (r.den : Int)).toNat
  (if q < 0 then "-" else "") ++ toString (m / 10000) ++ "." ++ pad4 (m % 10000)

/-- The per-hit external identifier (lines 497-503): `doc_id`, else the stem
of `source_path`, else the sidecar's attachment-key field. -/
def deriveKeyFull (sidecar : String → Option (List String)) (r : Hit) : String :=
  let sp := pyStrip r.sourcePath
  let md := if sp ≠ "" then mdOf sidecar sp else {}
  let k0 := pyStrip r.docId
  let k1 := if k0 = "" then pyStem sp else k0
  if k1 = "" then pyStrip (md.attachmentKey.getD "") else k1

/-- The batched identifier list (lines 481-487): per hit `doc_id`, else the
stem of `source_path`; appended only when non-empty.  (The sidecar fallback
of `deriveKeyFull` is *not* applied here.) -/
def deriveKeyBatch (uniq : List Hit) : List String :=
  (uniq.map (fun r =>
    let k := pyStrip r.docId
    if k = "" then pyStem (pyStrip r.sourcePath) else k)).filter (fun k => k ≠ "")

/-- The two items emitted for one surviving hit (lines 492-552). -/
def assembleHit (sidecar : String → Option (List String))
    (metaMap : List (String × MetaRec)) (rank : Nat) (r : Hit) : List Item :=
  let source_path := pyStrip r.sourcePath
  let title :=
    if pyStrip r.title ≠ "" then pyStrip r.title
    else if pyStem source_path ≠ "" then pyStem source_path
    else "(untitled)"
  let md := if source_path ≠ "" then mdOf sidecar source_path else {}
  let attachment_key := deriveKeyFull sidecar r
  let meta := dictGet metaMap attachment_key
  let authors := (meta.map MetaRec.authors).getD ""
  let date := (meta.map MetaRec.date).getD ""
  let publication := (meta.map MetaRec.publication).getD ""
  let paper_title :=
    if (meta.map MetaRec.parent_title).getD "" ≠ "" then
      (meta.map MetaRec.parent_title).getD ""
    else title
  let meta_parts := [authors, date, publication].filter (fun s => s ≠ "")
  let meta_text := joinWith " · " meta_parts
  let score_text := "score=" ++ fmt4 r.fusionScore
  let base_subtitle :=
    joinWith " | " ([paper_title, score_text] ++ if meta_text ≠ "" then [meta_text] else [])
  let pdf0 := pyStrip ((meta.map MetaRec.pdf_path).getD "")
  let pdf_path := if pdf0 = "" then pyStrip (md.sourcePdf.getD "") else pdf0
  let file_title0 := if pdf_path ≠ "" then pyStrip (pyPathName pdf_path) else ""
  let file_title := if file_title0 = "" then title else file_title0
  let full_item : Item :=
    if pdf_path ≠ "" then
      { title := file_title, subtitle := "Full PDF | " ++ base_subtitle,
        alwaysShowsSubtitle := true, label := some (toString rank),
        path := some pdf_path, quickLookURL := some pdf_path }
    else
      { title := file_title,
        subtitle := "Full PDF | " ++ base_subtitle ++ " | 找不到 PDF 路徑",
        alwaysShowsSubtitle := true, label := some (toString rank) }
  let zurl0 :=
    if attachment_key ≠ "" then "zotero://open-pdf/library/items/" ++ attachment_key
    else ""
  let zotero_url := if zurl0 = "" then pyStrip (md.zoteroLink.getD "") else zurl0
  let zotero_item : Item :=
    if zotero_url ≠ "" then
      { title := file_title, subtitle := "Open in Zotero | " ++ base_subtitle,
        alwaysShowsSubtitle := true, url := some zotero_url }
    else
      { title := file_title,
        subtitle := "Open in Zotero | " ++ base_subtitle ++ " | 找不到 Zotero 連結",
        alwaysShowsSubtitle := true }
  [full_item, zotero_item]

/-- `for rank, result in enumerate(unique_results, start=1)`. -/
def assembleList (sidecar : String → Option (List String))
    (metaMap : List (String × MetaRec)) : Nat → List Hit → List Item
  | _, [] => []
  | rank, r :: rs =>
      assembleHit sidecar metaMap rank r ++ assembleList sidecar metaMap (rank + 1) rs

/-! ## `_build_semantic_items` and `main` -/

/-- Environment of one `_build_semantic_items` call: configuration values and
the behaviour of every external collaborator. -/
structure SemEnv where
  useLocal : Bool
  apiKey : String
  pathError : Option String
  importError : Option String
  searchFn : String → Except String (List Hit)
  fzfRun : String → FzfOut
  maxDocs : Nat
  snapEnv : SnapEnv
  runQuery : String → List String → Except String (List SqlRow)
  fs : FS
  storageDir : String
  sidecar : String → Option (List String)

/-- `_build_semantic_items`.  A `.error` result models a Python exception
escaping the function (there is no handler around the metadata lookup). -/
def buildSemanticItems (env : SemEnv) (q : String) : Except String (List Item) :=
  match env.pathError with
  | some e => .ok [itemError "索引設定錯誤" e]
  | none =>
      if env.useLocal = false ∧ env.apiKey = "" then
        .ok [itemError "找不到 OPENROUTER_API_KEY" "請先設定 API Key，再重新搜尋。"]
      else
        match env.importError with
        | some e => .ok [itemError "無法載入 semsearch 模組" e]
        | none =>
            match env.searchFn q with
            | .error exc =>
                .ok (semanticFallback env.useLocal exc (runFzfMode q (env.fzfRun q)))
            | .ok raw =>
                let uniq := uniqueResults raw env.maxDocs
                if uniq.isEmpty then
                  .ok [itemInfo "找不到符合結果" "請嘗試不同關鍵字。"]
                else
                  match loadAttachmentMeta env.snapEnv env.runQuery env.fs
                      env.storageDir (deriveKeyBatch uniq) with
                  | (.error e, _) => .error e
                  | (.ok metaMap, _) => .ok (assembleList env.sidecar metaMap 1 uniq)

/-- `" ".join(part.strip() for part in sys.argv[1:] if part.strip()).strip()`. -/
def joinQuery (argv : List String) : String :=
  pyStrip (joinWith " " ((argv.map pyStrip).filter (fun s => s ≠ "")))

/-- Environment of `main`: the config-load outcome, the configured semantic
mode marker (`SEMANTIC_PREFIX`), and the semantic-path environment. -/
structure MainEnv where
  configError : Option String
  semanticMark : String
  sem : SemEnv

/-- `main` (lines 557-585).  A `.error` result models an exception escaping
`main` (the program then prints a traceback and emits nothing). -/
def mainModel (menv : MainEnv) (argv : List String) : Except String (List Item) :=
  match menv.configError with
  | some e => .ok [itemError "設定檔錯誤" e]
  | none =>
      let q := joinQuery argv
      if q = "" then
        .ok [itemInfo "請輸入搜尋關鍵字"
          ("一般模式=Zotero 本地關鍵字搜尋（fzf）；前綴 " ++ menv.semanticMark ++
           " 可切換為語義搜尋。")]
      else if strStarts q menv.semanticMark then
        let q2 := pyStrip (strDrop q (strLen menv.semanticMark))
        if q2 = "" then
          .ok [itemInfo "請輸入語義搜尋關鍵字"
            ("請在前綴 " ++ menv.semanticMark ++ " 後面輸入查詢內容。")]
        else buildSemanticItems menv.sem q2
      else .ok (runFzfMode q (menv.sem.fzfRun q))

/-! ## Concrete environments used by witnesses and counterexamples -/

/-- A filesystem with no entries. -/
def emptyFS : FS :=
  { pathExists := fun _ => false, isDir := fun _ => false,
    isFile := fun _ => false, listDir := fun _ => [] }

/-- A semantic environment whose snapshot creation fails on both methods
while the primary search succeeds with one hit carrying a `doc_id`. -/
def envSnapFail : MainEnv :=
  { configError := none, semanticMark := "`",
    sem := { useLocal := true, apiKey := "", pathError := none, importError := none,
             searchFn := fun _ => .ok [⟨"/a/x.pdf", "K1", "T", 91/100⟩],
             fzfRun := fun _ => .procFail "x", maxDocs := 8,
             snapEnv := { tmpPath := "/tmp/s.sqlite", backupOk := false, copyOk := false,
                          copyErrMsg := "disk full", tmpExists := true },
             runQuery := fun _ _ => .ok [], fs := emptyFS, storageDir := "/st",
             sidecar := fun _ => none } }

/-- Same environment except that the fzf helper prints the valid empty JSON
array, so keyword mode returns zero items. -/
def envFzfEmpty : MainEnv :=
  { envSnapFail with
    sem := { envSnapFail.sem with fzfRun := fun _ => .parsed [] } }

/-- A healthy environment: backup succeeds, queries return no rows, the fzf
helper fails with a process error (a single error item). -/
def envHealthy : MainEnv :=
  { configError := none, semanticMark := "`",
    sem := { useLocal := true, apiKey := "", pathError := none, importError := none,
             searchFn := fun _ => .error "model server down",
             fzfRun := fun _ => .emptyOutput, maxDocs := 8,
             snapEnv := { tmpPath := "/tmp/s.sqlite", backupOk := true, copyOk := true,
                          copyErrMsg := "", tmpExists := false },
             runQuery := fun _ _ => .ok [], fs := emptyFS, storageDir := "/st",
             sidecar := fun _ => none } }

/-- A joined metadata map with one record whose `pdf_path` is empty. -/
def mmNoPdf : List (String × MetaRec) := [("K1", ⟨"Paper", "", "", "", ""⟩)]

/-- Sidecar store for the document at `/a/x.md` carrying a source-pdf field. -/
def scNoPdf : String → Option (List String) :=
  fun p => if p = "/a/x.md" then some ["- Source PDF: /pdfs/x.pdf"] else none

/-- A hit that joins to `mmNoPdf` through its `doc_id`. -/
def hitNoPdf : Hit := ⟨"/a/x.md", "K1", "T", 1/2⟩

/-! # Lemmas about the insertion-ordered dictionary -/

theorem dictGet_update_self {α : Type} (l : List (String × α)) (k : String) (v : α) :
    dictGet (dictUpdate l k v) k = some v := by
  induction l with
  | nil => simp [dictUpdate, dictGet]
  | cons p rest ih =>
      obtain ⟨k0, v0⟩ := p
      by_cases h : k0 = k
      · simp [dictUpdate, h, dictGet]
      · simp [dictUpdate, h, dictGet, ih]

theorem dictGet_update_ne {α : Type} (l : List (String × α)) {k' k : String} (v : α)
    (h : k' ≠ k) : dictGet (dictUpdate l k' v) k = dictGet l k := by
  induction l with
  | nil => simp [dictUpdate, dictGet, h]
  | cons p rest ih =>
      obtain ⟨k0, v0⟩ := p
      by_cases h0 : k0 = k'
      · subst h0
        simp [dictUpdate, dictGet, h]
      · simp [dictUpdate, h0, dictGet, ih]

theorem mem_dictUpdate {α : Type} {l : List (String × α)} {k : String} {v : α}
    {p : String × α} (h : p ∈ dictUpdate l k v) : p ∈ l ∨ p = (k, v) := by
  induction l with
  | nil => simpa [dictUpdate] using h
  | cons q rest ih =>
      obtain ⟨k0, v0⟩ := q
      by_cases h0 : k0 = k
      · simp [dictUpdate, h0] at h
        rcases h with h | h
        · exact Or.inr (by simp [h])
        · exact Or.inl (by simp [h])
      · simp [dictUpdate, h0] at h
        rcases h with h | h
        · exact Or.inl (by simp [h])
        · rcases ih h with h' | h'
          · exact Or.inl (by simp [h'])
          · exact Or.inr h'

theorem fst_mem_dictUpdate {α : Type} {l : List (String × α)} {k : String} {v : α}
    {a : String} (h : a ∈ (dictUpdate l k v).map Prod.fst) :
    a ∈ l.map Prod.fst ∨ a = k := by
  rcases List.mem_map.mp h with ⟨p, hp, rfl⟩
  rcases mem_dictUpdate hp with h' | h'
  · exact Or.inl (List.mem_map_of_mem Prod.fst h')
  · subst h'
    exact Or.inr rfl

theorem nodup_keys_dictUpdate {α : Type} {l : List (String × α)} (k : String) (v : α)
    (h : (l.map Prod.fst).Nodup) : ((dictUpdate l k v).map Prod.fst).Nodup := by
  induction l with
  | nil => simp [dictUpdate]
  | cons p rest ih =>
      obtain ⟨k0, v0⟩ := p
      simp only [List.map_cons, List.nodup_cons] at h
      by_cases h0 : k0 = k
      · subst h0
        simpa [dictUpdate, List.nodup_cons] using h
      · have := ih h.2
        simp only [dictUpdate, h0, if_false, List.map_cons, List.nodup_cons]
        refine ⟨fun hmem => ?_, this⟩
        rcases fst_mem_dictUpdate hmem with h' | h'
        · exact h.1 h'
        · exact h0 h'

theorem dictGet_of_mem {α : Type} {l : List (String × α)} {k : String} {v : α}
    (hn : (l.map Prod.fst).Nodup) (h : (k, v) ∈ l) : dictGet l k = some v := by
  induction l with
  | nil => simp at h
  | cons p rest ih =>
      obtain ⟨k0, v0⟩ := p
      simp only [List.map_cons, List.nodup_cons] at hn
      rcases List.mem_cons.mp h with h' | h'
      · rw [Prod.mk.injEq] at h'
        obtain ⟨h1, h2⟩ := h'
        subst h1
        subst h2
        simp [dictGet]
      · have hne : k0 ≠ k := by
          intro hk
          subst hk
          exact hn.1 (List.mem_map_of_mem Prod.fst h')
        simp [dictGet, hne, ih hn.2 h']

theorem mem_of_dictGet {α : Type} {l : List (String × α)} {k : String} {v : α}
    (h : dictGet l k = some v) : (k, v) ∈ l := by
  induction l with
  | nil => simp [dictGet] at h
  | cons p rest ih =>
      obtain ⟨k0, v0⟩ := p
      by_cases h0 : k0 = k
      · subst h0
        simp [dictGet] at h
        simp [h]
      · simp [dictGet, h0] at h
        exact List.mem_cons_of_mem _ (ih h)

/-! # Lemmas about deduplication (`bestBySource`) -/

theorem bestStep_mem {acc : List (String × Hit)} {r : Hit} {p : String × Hit}
    (h : p ∈ bestStep acc r) : p ∈ acc ∨ (p = (hitKey r, r) ∧ hitKey r ≠ "") := by
  unfold bestStep at h
  by_cases hk : hitKey r = ""
  · simp [hk] at h
    exact Or.inl h
  · simp only [hk, if_false] at h
    rcases hget : dictGet acc (hitKey r) with _ | cur
    · rw [hget] at h
      rcases mem_dictUpdate h with h' | h'
      · exact Or.inl h'
      · exact Or.inr ⟨h', hk⟩
    · rw [hget] at h
      by_cases hlt : cur.fusionScore < r.fusionScore
      · simp only [hlt, if_true] at h
        rcases mem_dictUpdate h with h' | h'
        · exact Or.inl h'
        · exact Or.inr ⟨h', hk⟩
      · simp only [hlt, if_false] at h
        exact Or.inl h

theorem bestStep_nodup {acc : List (String × Hit)} {r : Hit}
    (h : (acc.map Prod.fst).Nodup) : ((bestStep acc r).map Prod.fst).Nodup := by
  unfold bestStep
  by_cases hk : hitKey r = ""
  · simpa [hk]
  · simp only [hk, if_false]
    rcases dictGet acc (hitKey r) with _ | cur
    · exact nodup_keys_dictUpdate _ _ h
    · by_cases hlt : cur.fusionScore < r.fusionScore
      · simpa [hlt] using nodup_keys_dictUpdate (hitKey r) r h
      · simpa [hlt] using h

theorem bestFold_nodup (l : List Hit) (acc : List (String × Hit))
    (h : (acc.map Prod.fst).Nodup) : ((l.foldl bestStep acc).map Prod.fst).Nodup := by
  induction l generalizing acc with
  | nil => simpa using h
  | cons r t ih => exact ih _ (bestStep_nodup h)

theorem bestFold_mem (l : List Hit) (acc : List (String × Hit)) {p : String × Hit}
    (h : p ∈ l.foldl bestStep acc) :
    p ∈ acc ∨ (p.1 ≠ "" ∧ p.2 ∈ l ∧ p.1 = hitKey p.2) := by
  induction l generalizing acc with
  | nil => exact Or.inl (by simpa using h)
  | cons r t ih =>
      rw [List.foldl_cons] at h
      rcases ih _ h with h' | h'
      · rcases bestStep_mem h' with h'' | ⟨h'', hk⟩
        · exact Or.inl h''
        · subst h''
          exact Or.inr ⟨hk, List.mem_cons_self _ _, rfl⟩
      · exact Or.inr ⟨h'.1, List.mem_cons_of_mem _ h'.2.1, h'.2.2⟩

theorem mergeBest_none_right (o : Option Hit) : mergeBest o none = o := by
  cases o <;> rfl

theorem firstMax_cons (h : Hit) (t : List Hit) :
    firstMax (h :: t) = mergeBest (some h) (firstMax t) := by
  cases ht : firstMax t <;> simp [firstMax, mergeBest, ht]

theorem mergeBest_assoc (a b c : Option Hit) :
    mergeBest (mergeBest a b) c = mergeBest a (mergeBest b c) := by
  cases a with
  | none => rfl
  | some x =>
      cases b with
      | none => cases c <;> rfl
      | some y =>
          cases c with
          | none => simp [mergeBest_none_right]
          | some z =>
              by_cases h1 : x.fusionScore < y.fusionScore <;>
                by_cases h2 : y.fusionScore < z.fusionScore <;>
                  by_cases h3 : x.fusionScore < z.fusionScore <;>
                    simp [mergeBest, h1, h2, h3] <;>
                      (exfalso; linarith)

theorem bestFold_get (l : List Hit) (acc : List (String × Hit)) (k : String)
    (hk : k ≠ "") :
    dictGet (l.foldl bestStep acc) k
      = mergeBest (dictGet acc k) (firstMax (l.filter (fun h => hitKey h == k))) := by
  induction l generalizing acc with
  | nil => simp [firstMax, mergeBest_none_right]
  | cons r t ih =>
      rw [List.foldl_cons, ih]
      by_cases hr : hitKey r = k
      · have hfil : (r :: t).filter (fun h => hitKey h == k)
            = r :: t.filter (fun h => hitKey h == k) := by
          simp [List.filter_cons, hr]
        rw [hfil, firstMax_cons, ← mergeBest_assoc]
        congr 1
        unfold bestStep
        rw [hr]
        simp only [hk, if_false]
        rcases hget : dictGet acc k with _ | cur
        · simp [dictGet_update_self, mergeBest]
        · by_cases hlt : cur.fusionScore < r.fusionScore
          · simp [hlt, dictGet_update_self, mergeBest]
          · simp [hlt, hget, mergeBest]
      · have hfil : (r :: t).filter (fun h => hitKey h == k)
            = t.filter (fun h => hitKey h == k) := by
          simp [List.filter_cons, hr]
        rw [hfil]
        congr 1
        unfold bestStep
        by_cases hk0 : hitKey r = ""
        · simp [hk0]
        · simp only [hk0, if_false]
          rcases dictGet acc (hitKey r) with _ | cur
          · exact dictGet_update_ne _ _ hr
          · by_cases hlt : cur.fusionScore < r.fusionScore
            · simpa [hlt] using dictGet_update_ne acc r hr
            · simp [hlt]

theorem firstMax_eq_none {l : List Hit} : firstMax l = none ↔ l = [] := by
  cases l with
  | nil => simp [firstMax]
  | cons h t =>
      cases ht : firstMax t with
      | none => simp [firstMax, ht]
      | some c =>
          simp only [firstMax, ht]
          split <;> simp

theorem firstMax_split (l : List Hit) :
    ∀ b : Hit, firstMax l = some b →
      ∃ l₁ l₂, l = l₁ ++ b :: l₂ ∧ (∀ x ∈ l₁, x.fusionScore < b.fusionScore) ∧
        (∀ x ∈ l₂, x.fusionScore ≤ b.fusionScore) := by
  induction l with
  | nil => intro b h; simp [firstMax] at h
  | cons a t ih =>
      intro b h
      cases ht : firstMax t with
      | none =>
          have hte : t = [] := firstMax_eq_none.mp ht
          subst hte
          simp [firstMax] at h
          subst h
          exact ⟨[], [], rfl, by simp, by simp⟩
      | some c =>
          rw [firstMax_cons, ht] at h
          simp only [mergeBest] at h
          obtain ⟨l₁, l₂, he, h1, h2⟩ := ih c ht
          by_cases hlt : a.fusionScore < c.fusionScore
          · rw [if_pos hlt] at h
            injection h with hcb
            subst hcb
            refine ⟨a :: l₁, l₂, by simp [he], ?_, h2⟩
            intro x hx
            rcases List.mem_cons.mp hx with hx | hx
            · subst hx; exact hlt
            · exact h1 x hx
          · rw [if_neg hlt] at h
            injection h with hab
            subst hab
            refine ⟨[], t, rfl, by simp, ?_⟩
            intro x hx
            have hca : c.fusionScore ≤ a.fusionScore := le_of_not_lt hlt
            subst he
            rcases List.mem_append.mp hx with hx | hx
            · exact le_trans (le_of_lt (h1 x hx)) hca
            · rcases List.mem_cons.mp hx with hx | hx
              · subst hx; exact hca
              · exact le_trans (h2 x hx) hca

/-- C1. Deduplication correctness of `bestBySource`: the surviving dict has
pairwise-distinct keys, every entry's key is its hit's non-empty stripped
`sourcePath`, the stored hit is the earliest hit attaining the maximum
`fusionScore` among the hits sharing that path (all earlier ones in the group
score strictly less, all later ones score no more), every hit with a
non-empty stripped path is represented, and hence every hit with an empty
path is excluded. -/
theorem dedup_correctness (hits : List Hit) :
    (((bestBySource hits).map Prod.fst).Nodup)
    ∧ (∀ p ∈ bestBySource hits, p.1 ≠ "" ∧ p.1 = hitKey p.2 ∧
        ∃ l₁ l₂, hits.filter (fun h => hitKey h == p.1) = l₁ ++ p.2 :: l₂
          ∧ (∀ x ∈ l₁, x.fusionScore < p.2.fusionScore)
          ∧ (∀ x ∈ l₂, x.fusionScore ≤ p.2.fusionScore))
    ∧ (∀ h ∈ hits, hitKey h ≠ "" → ∃ b, (hitKey h, b) ∈ bestBySource hits) := by
  have hnodup : ((bestBySource hits).map Prod.fst).Nodup :=
    bestFold_nodup hits [] (by simp)
  refine ⟨hnodup, ?_, ?_⟩
  · intro p hp
    rcases bestFold_mem hits [] hp with h | ⟨hne, _hmem, hkey⟩
    · simp at h
    refine ⟨hne, hkey, ?_⟩
    have hget : dictGet (bestBySource hits) p.1 = some p.2 := by
      have := dictGet_of_mem hnodup (show (p.1, p.2) ∈ bestBySource hits from hp)
      simpa using this
    simp only [bestBySource] at hget
    rw [bestFold_get hits [] p.1 hne] at hget
    simp only [dictGet, mergeBest] at hget
    exact firstMax_split _ p.2 hget
  · intro h hh hk
    have hget := bestFold_get hits [] (hitKey h) hk
    simp only [dictGet, mergeBest] at hget
    have hmem : h ∈ hits.filter (fun x => hitKey x == hitKey h) :=
      List.mem_filter.mpr ⟨hh, by simp⟩
    have hne : hits.filter (fun x => hitKey x == hitKey h) ≠ [] :=
      List.ne_nil_of_mem hmem
    cases hfm : firstMax (hits.filter (fun x => hitKey x == hitKey h)) with
    | none => exact absurd (firstMax_eq_none.mp hfm) hne
    | some b =>
        rw [hfm] at hget
        exact ⟨b, by simp only [bestBySource]; exact mem_of_dictGet hget⟩

/-- Witness for C1 at a concrete hit list: the hit with stripped source path
`"/a"` is represented in the deduplicated dict. -/
theorem dedup_correctness_witness :
    ∃ b, ((hitKey ⟨" /a ", "k", "t", 1⟩, b) ∈
      bestBySource [⟨" /a ", "k", "t", 1⟩, ⟨"", "x", "y", 2⟩]) :=
  (dedup_correctness [⟨" /a ", "k", "t", 1⟩, ⟨"", "x", "y", 2⟩]).2.2
    ⟨" /a ", "k", "t", 1⟩ (by simp) (by decide)

/-! # Lemmas about the descending insertion sort -/

theorem mem_insertDesc {r x : Hit} {l : List Hit} :
    x ∈ insertDesc r l ↔ x = r ∨ x ∈ l := by
  induction l with
  | nil => simp [insertDesc]
  | cons a t ih =>
      by_cases h : a.fusionScore ≤ r.fusionScore
      · simp [insertDesc, h]
      · simp [insertDesc, h, ih]
        tauto

theorem pairwise_insertDesc {r : Hit} {l : List Hit}
    (h : l.Pairwise (fun a b => b.fusionScore ≤ a.fusionScore)) :
    (insertDesc r l).Pairwise (fun a b => b.fusionScore ≤ a.fusionScore) := by
  induction l with
  | nil => simp [insertDesc]
  | cons a t ih =>
      rcases List.pairwise_cons.mp h with ⟨ha, ht⟩
      by_cases hle : a.fusionScore ≤ r.fusionScore
      · rw [insertDesc, if_pos hle]
        refine List.pairwise_cons.mpr ⟨?_, h⟩
        intro x hx
        rcases List.mem_cons.mp hx with hx | hx
        · subst hx; exact hle
        · exact le_trans (ha x hx) hle
      · rw [insertDesc, if_neg hle]
        refine List.pairwise_cons.mpr ⟨?_, ih ht⟩
        intro x hx
        rcases mem_insertDesc.mp hx with hx | hx
        · subst hx; exact le_of_lt (lt_of_not_le hle)
        · exact ha x hx

theorem pairwise_sortDesc (l : List Hit) :
    (sortDesc l).Pairwise (fun a b => b.fusionScore ≤ a.fusionScore) := by
  induction l with
  | nil => simp [sortDesc]
  | cons a t ih => exact pairwise_insertDesc ih

/-- C2. Cap and ordering invariant: for every input hit sequence and every
configured cap, the fused surviving sequence `uniqueResults` has length at
most the cap and is sorted by `fusionScore` in non-increasing order. -/
theorem fusion_cap_and_order (hits : List Hit) (cap : Nat) :
    (uniqueResults hits cap).length ≤ cap ∧
    (uniqueResults hits cap).Pairwise
      (fun a b => b.fusionScore ≤ a.fusionScore) := by
  constructor
  · exact List.length_take_le cap _
  · exact (pairwise_sortDesc _).sublist (List.take_sublist _ _)

/-- C3 counterexample: when the alternate keyword search reports an error
item, the code returns the primary failure as a fresh error item — the
alternate's own error item is discarded, not shown. -/
theorem fallback_policy_counterexample :
    semanticFallback true "primary: boom" [itemError "fzf 搜尋失敗" "alt: bad"]
      = [itemError "搜尋失敗" "primary: boom"]
    ∧ itemError "fzf 搜尋失敗" "alt: bad" ∉
        semanticFallback true "primary: boom" [itemError "fzf 搜尋失敗" "alt: bad"] := by
  refine ⟨rfl, ?_⟩
  decide

/-- C3 (amended). On a primary-search exception with the guards passed, the
result is exactly the fallback policy applied to the alternate search's
output for the original query: with a remote backend a single error-marked
item; with a local backend and an error-free alternate output, the
disclosure item (carrying the root cause) prepended to that output; with a
local backend and an error-reporting alternate output, a single error-marked
item carrying the primary failure (the alternate output is discarded). -/
theorem fallback_policy (env : SemEnv) (q msg : String)
    (hpath : env.pathError = none)
    (hkey : env.useLocal = true ∨ env.apiKey ≠ "")
    (himp : env.importError = none)
    (hsearch : env.searchFn q = .error msg) :
    buildSemanticItems env q
      = .ok (semanticFallback env.useLocal msg (runFzfMode q (env.fzfRun q)))
    ∧ (env.useLocal = false →
        semanticFallback env.useLocal msg (runFzfMode q (env.fzfRun q))
          = [itemError "搜尋失敗" msg])
    ∧ (env.useLocal = true →
        (∀ it ∈ runFzfMode q (env.fzfRun q), it.badge ≠ some "Error") →
        semanticFallback env.useLocal msg (runFzfMode q (env.fzfRun q))
          = itemInfo "本地語義搜尋暫時不可用，已改用本地關鍵字搜尋。" msg
              :: runFzfMode q (env.fzfRun q))
    ∧ (env.useLocal = true →
        (∃ it ∈ runFzfMode q (env.fzfRun q), it.badge = some "Error") →
        semanticFallback env.useLocal msg (runFzfMode q (env.fzfRun q))
          = [itemError "搜尋失敗" msg]) := by
  have hcond : ¬(env.useLocal = false ∧ env.apiKey = "") := by
    rcases hkey with h | h
    · simp [h]
    · simp [h]
  refine ⟨?_, ?_, ?_, ?_⟩
  · simp only [buildSemanticItems, hpath, himp, hsearch]
    rw [if_neg hcond]
  · intro hl
    simp [semanticFallback, hl]
  · intro hl hno
    have hany : (runFzfMode q (env.fzfRun q)).any
        (fun it => it.badge == some "Error") = false := by
      rw [List.any_eq_false]
      intro it hit
      simpa using hno it hit
    simp [semanticFallback, hl, hany]
  · intro hl hex
    have hany : (runFzfMode q (env.fzfRun q)).any
        (fun it => it.badge == some "Error") = true := by
      rcases hex with ⟨it, hit, hb⟩
      exact List.any_eq_true.mpr ⟨it, hit, by simp [hb]⟩
    simp [semanticFallback, hl, hany]

/-- Witness for C3 at the concrete environment `envHealthy` (local backend,
failing primary search, alternate search returning the no-matches item). -/
theorem fallback_policy_witness :
    buildSemanticItems envHealthy.sem "q"
      = .ok (semanticFallback envHealthy.sem.useLocal "model server down"
          (runFzfMode "q" (envHealthy.sem.fzfRun "q"))) :=
  (fallback_policy envHealthy.sem "q" "model server down" rfl (Or.inl rfl) rfl rfl).1

/-! # Helper lemmas for output totality -/

theorem createDbSnapshot_ok {e : SnapEnv}
    (h : e.backupOk = true ∨ e.copyOk = true) :
    (createDbSnapshot e).1 = .ok e.tmpPath := by
  by_cases hb : e.backupOk = true
  · simp [createDbSnapshot, hb]
  · rcases h with h | h
    · exact absurd h hb
    · simp [createDbSnapshot, hb, h]

theorem assembleHit_pair (sc : String → Option (List String))
    (mm : List (String × MetaRec)) (n : Nat) (r : Hit) :
    ∃ a b, assembleHit sc mm n r = [a, b] := ⟨_, _, rfl⟩

theorem assembleList_ne_nil (sc : String → Option (List String))
    (mm : List (String × MetaRec)) (n : Nat) {l : List Hit} (h : l ≠ []) :
    assembleList sc mm n l ≠ [] := by
  cases l with
  | nil => exact absurd rfl h
  | cons r rs =>
      obtain ⟨a, b, he⟩ := assembleHit_pair sc mm n r
      show assembleHit sc mm n r ++ assembleList sc mm (n + 1) rs ≠ []
      simp [he]

theorem semanticFallback_ne_nil (u : Bool) (msg : String) (its : List Item) :
    semanticFallback u msg its ≠ [] := by
  unfold semanticFallback
  split_ifs <;> simp

theorem runFzfMode_ne_nil {q : String} {o : FzfOut}
    (h : ∀ its, o = .parsed its → its ≠ []) : runFzfMode q o ≠ [] := by
  cases o with
  | parsed its => exact h its rfl
  | helperMissing hp => simp [runFzfMode]
  | procFail e => simp [runFzfMode]
  | emptyOutput => simp [runFzfMode]
  | badJson => simp [runFzfMode]
  | notArray => simp [runFzfMode]

theorem loadAttachmentMeta_ok (se : SnapEnv)
    (rq : String → List String → Except String (List SqlRow)) (fs : FS)
    (sd : String) (keys : List String)
    (hsnap : se.backupOk = true ∨ se.copyOk = true)
    (hquery : ∀ p ks, ∃ rows, rq p ks = .ok rows) :
    ∃ mm tr, loadAttachmentMeta se rq fs sd keys = (.ok mm, tr) := by
  unfold loadAttachmentMeta
  by_cases hk : (keys.filter (fun k => k ≠ "")).isEmpty = true
  · rw [if_pos hk]
    exact ⟨[], [], rfl⟩
  · rw [if_neg hk]
    have h1 := createDbSnapshot_ok hsnap
    split
    · next e snd heq =>
        exfalso
        rw [heq] at h1
        simp at h1
    · next snapshot snd heq =>
        split
        · next e heq2 =>
            exfalso
            obtain ⟨rows, hrows⟩ := hquery snapshot (keys.filter (fun k => k ≠ ""))
            rw [hrows] at heq2
            cases heq2
        · next rows heq2 => exact ⟨_, _, rfl⟩

theorem buildSemanticItems_total (env : SemEnv) (q : String)
    (hsnap : env.snapEnv.backupOk = true ∨ env.snapEnv.copyOk = true)
    (hquery : ∀ p ks, ∃ rows, env.runQuery p ks = .ok rows) :
    ∃ items, buildSemanticItems env q = .ok items ∧ items ≠ [] := by
  unfold buildSemanticItems
  split
  · exact ⟨_, rfl, by simp⟩
  · split_ifs with hc
    · exact ⟨_, rfl, by simp⟩
    · split
      · exact ⟨_, rfl, by simp⟩
      · split
        · exact ⟨_, rfl, semanticFallback_ne_nil _ _ _⟩
        · next raw heq =>
            by_cases hu : (uniqueResults raw env.maxDocs).isEmpty = true
            · rw [if_pos hu]
              exact ⟨_, rfl, by simp⟩
            · rw [if_neg hu]
              have huniq : uniqueResults raw env.maxDocs ≠ [] := by
                intro he
                rw [he] at hu
                exact hu rfl
              obtain ⟨mm, tr, hload⟩ := loadAttachmentMeta_ok env.snapEnv
                env.runQuery env.fs env.storageDir
                (deriveKeyBatch (uniqueResults raw env.maxDocs)) hsnap hquery
              rw [hload]
              exact ⟨_, rfl, assembleList_ne_nil _ _ _ huniq⟩

/-- C4 counterexample: two executions violating the claim.  In
`envSnapFail` the primary search succeeds but both snapshot methods fail, so
the metadata lookup's exception escapes `main` (modelled `.error`) and no
item list is emitted; in `envFzfEmpty` the keyword helper prints the valid
empty JSON array and the program emits an empty list, i.e. zero display
items. -/
theorem total_output_counterexample :
    mainModel envSnapFail ["`q"] = .error "無法建立 Zotero 資料庫快照：disk full"
    ∧ mainModel envFzfEmpty ["hello"] = .ok [] := ⟨rfl, rfl⟩

/-- C4 (amended). Provided snapshot creation succeeds by one of its two
methods, the batched metadata query does not raise, and the keyword helper
never returns an empty parsed array, every execution emits a well-formed
non-empty item list and no exception escapes; error-communicating items
built by the program carry the dedicated `badge = "Error"` marker while
informational items carry none.  (Without those provisos the guarantee
fails, as the counterexample shows.) -/
theorem total_output (menv : MainEnv) (argv : List String)
    (hsnap : menv.sem.snapEnv.backupOk = true ∨ menv.sem.snapEnv.copyOk = true)
    (hquery : ∀ p ks, ∃ rows, menv.sem.runQuery p ks = .ok rows)
    (hfzf : ∀ q its, menv.sem.fzfRun q = .parsed its → its ≠ []) :
    (∃ items, mainModel menv argv = .ok items ∧ items ≠ [])
    ∧ (∀ t s, (itemError t s).badge = some "Error" ∧ (itemInfo t s).badge = none) := by
  refine ⟨?_, fun t s => ⟨rfl, rfl⟩⟩
  unfold mainModel
  cases hc : menv.configError with
  | some e => exact ⟨_, rfl, by simp⟩
  | none =>
      by_cases hq : joinQuery argv = ""
      · rw [if_pos hq]
        exact ⟨_, rfl, by simp⟩
      · rw [if_neg hq]
        by_cases hs : strStarts (joinQuery argv) menv.semanticMark = true
        · rw [if_pos hs]
          by_cases hq2 :
              pyStrip (strDrop (joinQuery argv) (strLen menv.semanticMark)) = ""
          · rw [if_pos hq2]
            exact ⟨_, rfl, by simp⟩
          · rw [if_neg hq2]
            exact buildSemanticItems_total menv.sem _ hsnap hquery
        · rw [if_neg hs]
          exact ⟨_, rfl, runFzfMode_ne_nil (fun its h => hfzf _ its h)⟩

/-- Witness for C4 at the healthy concrete environment. -/
theorem total_output_witness :
    ∃ items, mainModel envHealthy ["hi"] = .ok items ∧ items ≠ [] :=
  (total_output envHealthy ["hi"] (Or.inl rfl)
    (fun _ _ => ⟨[], rfl⟩)
    (fun _ _ h => FzfOut.noConfusion h)).1

/-- A path whose `pathlib` stem is empty has an empty `pathlib` name: the
stem is the name with at most a proper suffix removed, so it is empty only
when the name itself is. -/
theorem pyPathName_of_pyStem_empty (s : String) (h : pyStem s = "") :
    pyPathName s = "" := by
  simp only [pyStem] at h
  cases hd : lastDotPos (pyPathName s).data with
  | none =>
      rw [hd] at h
      exact h
  | some i =>
      rw [hd] at h
      have h' : (if 0 < i ∧ i < (pyPathName s).data.length - 1
          then (⟨(pyPathName s).data.take i⟩ : String)
          else (⟨(pyPathName s).data⟩ : String)) = "" := h
      by_cases hcond : 0 < i ∧ i < (pyPathName s).data.length - 1
      · rw [if_pos hcond] at h'
        exfalso
        have hdata : (pyPathName s).data.take i = [] := congrArg String.data h'
        have hlen : ((pyPathName s).data.take i).length = 0 := by
          rw [hdata]
          rfl
        rw [List.length_take] at hlen
        omega
      · rw [if_neg hcond] at h'
        exact h'

/-- Under the filesystem fact `hsc` below, the per-hit identifier of lines
497-503 always coincides with the batch-loop identifier of lines 481-487:
the sidecar branch fires only when `doc_id` and the stem are both empty,
which forces a path with an empty final component — and such a path names a
directory (or nothing), so `_parse_md_meta` on it returns the empty dict
(`path.exists()` false, or `OSError`/`IsADirectoryError` on `read_text`). -/
theorem deriveKeyFull_eq_batchKey (sc : String → Option (List String))
    (hsc : ∀ p, pyPathName p = "" → sc p = none) (h : Hit) :
    deriveKeyFull sc h
      = (if pyStrip h.docId = "" then pyStem (pyStrip h.sourcePath)
         else pyStrip h.docId) := by
  unfold deriveKeyFull
  by_cases hd : pyStrip h.docId = ""
  · by_cases hstem : pyStem (pyStrip h.sourcePath) = ""
    · by_cases hsp : pyStrip h.sourcePath = ""
      · simp [hd, hstem, hsp]
        exact fun _ => rfl
      · have hnm : pyPathName (pyStrip h.sourcePath) = "" :=
          pyPathName_of_pyStem_empty _ hstem
        simp [hd, hstem, hsp, mdOf, hsc _ hnm]
        rfl
    · simp [hd, hstem]
  · simp [hd]

/-- C5. Identifier derivation and batching, under the realizability
hypothesis `hsc` that the sidecar store yields no content for a path whose
final `pathlib` component is empty (such a path is a directory designator,
which `_parse_md_meta` cannot read — it returns the empty dict).  The
external identifier of each hit is the first non-empty of `doc_id`, the
filename stem of `source_path`, and the sidecar's attachment-key field, in
that order; every hit's non-empty derived identifier appears in the batched
identifier list, and that list — passed in one call to the metadata joiner —
consists exactly of the hits' derived identifiers. -/
theorem key_derivation_and_batch (sc : String → Option (List String))
    (hsc : ∀ p, pyPathName p = "" → sc p = none) (r : Hit) (uniq : List Hit) :
    (pyStrip r.docId ≠ "" → deriveKeyFull sc r = pyStrip r.docId)
    ∧ (pyStrip r.docId = "" → pyStem (pyStrip r.sourcePath) ≠ "" →
        deriveKeyFull sc r = pyStem (pyStrip r.sourcePath))
    ∧ (pyStrip r.docId = "" → pyStem (pyStrip r.sourcePath) = "" →
        deriveKeyFull sc r
          = pyStrip (((if pyStrip r.sourcePath ≠ "" then mdOf sc (pyStrip r.sourcePath)
              else ({} : MdMeta)).attachmentKey).getD ""))
    ∧ (∀ h ∈ uniq, deriveKeyFull sc h ≠ "" → deriveKeyFull sc h ∈ deriveKeyBatch uniq)
    ∧ (∀ k ∈ deriveKeyBatch uniq, k ≠ "" ∧ ∃ h ∈ uniq, k = deriveKeyFull sc h) := by
  refine ⟨?_, ?_, ?_, ?_, ?_⟩
  · intro h
    simp [deriveKeyFull, h]
  · intro h hstem
    simp [deriveKeyFull, h, hstem]
  · intro h hstem
    simp [deriveKeyFull, h, hstem]
  · intro h hh hne
    rw [deriveKeyFull_eq_batchKey sc hsc] at hne ⊢
    simp only [deriveKeyBatch, List.mem_filter, List.mem_map]
    exact ⟨⟨h, hh, rfl⟩, by simpa using hne⟩
  · intro k hk
    simp only [deriveKeyBatch, List.mem_filter, List.mem_map] at hk
    obtain ⟨⟨h, hh, hmap⟩, hne⟩ := hk
    refine ⟨by simpa using hne, h, hh, ?_⟩
    rw [deriveKeyFull_eq_batchKey sc hsc, ← hmap]

/-- Witness for C5 at a concrete realizable sidecar store (one readable file
at `/a/x.md`) and a hit with a non-empty `doc_id`. -/
theorem key_derivation_and_batch_witness :
    deriveKeyFull scNoPdf hitNoPdf = pyStrip "K1" :=
  (key_derivation_and_batch scNoPdf
    (fun p hp => by
      show (if p = "/a/x.md" then some ["- Source PDF: /pdfs/x.pdf"] else none) = none
      rw [if_neg]
      intro hpq
      subst hpq
      exact absurd hp (by decide))
    hitNoPdf [hitNoPdf]).1 (by decide)

/-! # Lemmas about the sidecar parser -/

theorem mdCount_le_three (m : MdMeta) : mdCount m ≤ 3 := by
  unfold mdCount
  split_ifs <;> omega

theorem parseGo_append (ex : List String) :
    ∀ (ls : List String) (m : MdMeta), mdCount m < 3 → mdCount (parseGo m ls) = 3 →
      parseGo m (ls ++ ex) = parseGo m ls := by
  intro ls
  induction ls with
  | nil =>
      intro m hlt h3
      rw [show parseGo m [] = m from rfl] at h3
      omega
  | cons l t ih =>
      intro m hlt h3
      simp only [List.cons_append, parseGo] at h3 ⊢
      by_cases hc : mdCount (parseStep m l) = 3
      · simp [hc]
      · simp only [hc, if_false] at h3 ⊢
        exact ih (parseStep m l) (lt_of_le_of_ne (mdCount_le_three _) hc) h3

/-- C6 counterexample: the hit joins to a non-empty metadata record (so the
primary database join did *not* yield nothing), yet because the joined
record's `pdf_path` is empty the emitted full-document item takes its file
path from the sidecar's source-pdf field. -/
theorem sidecar_usage_counterexample :
    dictGet mmNoPdf (deriveKeyFull scNoPdf hitNoPdf) = some ⟨"Paper", "", "", "", ""⟩
    ∧ ((assembleHit scNoPdf mmNoPdf 1 hitNoPdf).head?.bind Item.path)
        = some "/pdfs/x.pdf"
    ∧ parseMdMeta ["- Source PDF: /pdfs/x.pdf"]
        = { sourcePdf := some "/pdfs/x.pdf" } :=
  ⟨rfl, rfl, rfl⟩

/-- C6 (amended). The sidecar file is parsed by scanning only the first 40
lines, stopping early once all three labeled fields are found; its fields
act as per-field fallbacks during item assembly: in particular the emitted
file path is the joined record's `pdf_path` when that is non-empty, and the
sidecar's source-pdf field whenever the joined `pdf_path` is empty — even
when the join result itself is non-empty. -/
theorem sidecar_scan_and_usage :
    (∀ lines : List String, parseMdMeta lines = parseMdMeta (lines.take 40))
    ∧ (∀ lines extra : List String, mdCount (parseMdMeta lines) = 3 →
        parseMdMeta (lines ++ extra) = parseMdMeta lines)
    ∧ (∀ (sc : String → Option (List String)) (mm : List (String × MetaRec))
        (rank : Nat) (r : Hit),
        (pyStrip (((dictGet mm (deriveKeyFull sc r)).map MetaRec.pdf_path).getD "") ≠ "" →
          (assembleHit sc mm rank r).head?.bind Item.path
            = some (pyStrip (((dictGet mm (deriveKeyFull sc r)).map
                MetaRec.pdf_path).getD "")))
        ∧ (pyStrip (((dictGet mm (deriveKeyFull sc r)).map MetaRec.pdf_path).getD "") = "" →
            pyStrip (((if pyStrip r.sourcePath ≠ "" then mdOf sc (pyStrip r.sourcePath)
                else ({} : MdMeta)).sourcePdf).getD "") ≠ "" →
            (assembleHit sc mm rank r).head?.bind Item.path
              = some (pyStrip (((if pyStrip r.sourcePath ≠ ""
                  then mdOf sc (pyStrip r.sourcePath)
                  else ({} : MdMeta)).sourcePdf).getD "")))) := by
  refine ⟨?_, ?_, ?_⟩
  · intro lines
    unfold parseMdMeta
    rw [List.take_take]
    simp
  · intro lines extra h3
    unfold parseMdMeta at h3 ⊢
    rw [List.take_append_eq_append_take]
    exact parseGo_append _ _ _ (by decide) h3
  · intro sc mm rank r
    constructor
    · intro hjoin
      simp [assembleHit, hjoin]
    · intro hjoin hsc
      have hsc' : pyStrip ((if pyStrip r.sourcePath = "" then ({} : MdMeta)
          else mdOf sc (pyStrip r.sourcePath)).sourcePdf.getD "") ≠ "" := by
        by_cases hsp : pyStrip r.sourcePath = ""
        · simpa [hsp] using hsc
        · simpa [hsp] using hsc
      simp [assembleHit, hjoin, hsc']

/-- Witness for C6: the early-stop clause applied to a concrete complete
sidecar file with extra lines appended. -/
theorem sidecar_scan_and_usage_witness :
    parseMdMeta (["- Attachment Key: A", "- Source PDF: /p", "- Zotero Link: z"]
        ++ ["- Attachment Key: B"])
      = parseMdMeta ["- Attachment Key: A", "- Source PDF: /p", "- Zotero Link: z"] :=
  sidecar_scan_and_usage.2.1
    ["- Attachment Key: A", "- Source PDF: /p", "- Zotero Link: z"]
    ["- Attachment Key: B"] (by decide)

/-- C7. Path resolver totality: on every input the resolver's value is one of
the defined outcomes — the empty string, the storage-relative candidate, a
member of the sorted pdf scan of the attachment directory, the normalized
file-URI, or the bare stripped raw path.  (Totality itself is by
construction: the embedding is a total function, mirroring the source's
exception-free branches.) -/
theorem resolver_totality (fs : FS) (storageDir rawPathField attachmentKey : String) :
    resolvePdfPath fs storageDir rawPathField attachmentKey = ""
    ∨ resolvePdfPath fs storageDir rawPathField attachmentKey
        = pjoin (pjoin storageDir attachmentKey) (storageRel (pyStrip rawPathField))
    ∨ resolvePdfPath fs storageDir rawPathField attachmentKey
        ∈ pdfScan fs (pjoin storageDir attachmentKey)
    ∨ resolvePdfPath fs storageDir rawPathField attachmentKey
        = uriNormalize (pyStrip rawPathField)
    ∨ resolvePdfPath fs storageDir rawPathField attachmentKey
        = pyStrip rawPathField := by
  simp only [resolvePdfPath]
  split_ifs <;>
    first
      | exact Or.inl rfl
      | exact Or.inr (Or.inl rfl)
      | exact Or.inr (Or.inr (Or.inr (Or.inl rfl)))
      | exact Or.inr (Or.inr (Or.inr (Or.inr rfl)))
      | (cases hscan : pdfScan fs (pjoin storageDir attachmentKey) with
         | nil => exact Or.inl rfl
         | cons p ps => exact Or.inr (Or.inr (Or.inl (List.mem_cons_self p ps))))

/-- C8. Snapshot creation contract: if the structured backup fails the raw
copy is used; if both fail the call fails with the wrapped cause and the
partially created temporary file is removed when it exists; a path is
returned only when one of the two methods succeeded (and it is the temporary
path). -/
theorem snapshot_contract (e : SnapEnv) :
    (e.backupOk = false → e.copyOk = true → createDbSnapshot e = (.ok e.tmpPath, false))
    ∧ (e.backupOk = false → e.copyOk = false →
        createDbSnapshot e
          = (.error ("無法建立 Zotero 資料庫快照：" ++ e.copyErrMsg), e.tmpExists))
    ∧ (∀ p, (createDbSnapshot e).1 = .ok p →
        p = e.tmpPath ∧ (e.backupOk = true ∨ e.copyOk = true)) := by
  refine ⟨?_, ?_, ?_⟩
  · intro hb hc
    simp [createDbSnapshot, hb, hc]
  · intro hb hc
    simp [createDbSnapshot, hb, hc]
  · intro p hp
    by_cases hb : e.backupOk = true
    · simp [createDbSnapshot, hb] at hp
      exact ⟨hp.symm, Or.inl hb⟩
    · by_cases hc0 : e.copyOk = true
      · simp [createDbSnapshot, hb, hc0] at hp
        exact ⟨hp.symm, Or.inr hc0⟩
      · simp [createDbSnapshot, hb, hc0] at hp

/-- Witness for C8: with a failing backup and a succeeding raw copy the
temporary path is returned. -/
theorem snapshot_contract_witness :
    createDbSnapshot ⟨"/tmp/z.sqlite", false, true, "", false⟩
      = (.ok "/tmp/z.sqlite", false) :=
  (snapshot_contract ⟨"/tmp/z.sqlite", false, true, "", false⟩).1 rfl rfl

/-- C9. Snapshot release: whenever a snapshot was created (and the key list
did not short-circuit), the effect trace of the metadata lookup contains the
unlink of the snapshot path — on the successful-query exit as well as on the
query-exception exit — and the only database file ever opened for the query
is the snapshot path itself, never any other path (in particular not the
source database). -/
theorem snapshot_release (se : SnapEnv)
    (rq : String → List String → Except String (List SqlRow)) (fs : FS)
    (sd : String) (keys : List String) (p : String)
    (hcreated : (createDbSnapshot se).1 = .ok p)
    (hkeys : ¬(keys.filter (fun k => k ≠ "")).isEmpty = true) :
    Eff.unlink p ∈ (loadAttachmentMeta se rq fs sd keys).2
    ∧ (∀ q, Eff.openDb q ∈ (loadAttachmentMeta se rq fs sd keys).2 → q = p) := by
  unfold loadAttachmentMeta
  rw [if_neg hkeys]
  split
  · next e snd heq =>
      exfalso
      rw [heq] at hcreated
      simp at hcreated
  · next snapshot snd heq =>
      have hsp : snapshot = p := by
        rw [heq] at hcreated
        simpa using hcreated
      subst hsp
      split
      · next e heq2 =>
          refine ⟨by simp, ?_⟩
          intro q hq
          simpa using hq
      · next rows heq2 =>
          refine ⟨by simp, ?_⟩
          intro q hq
          simpa using hq

/-- Witness for C9 at a concrete environment with a succeeding backup and a
failing query: the snapshot is still unlinked. -/
theorem snapshot_release_witness :
    Eff.unlink "/tmp/z.sqlite" ∈
      (loadAttachmentMeta ⟨"/tmp/z.sqlite", true, true, "", false⟩
        (fun _ _ => .error "db locked") emptyFS "/st" ["K"]).2 :=
  (snapshot_release ⟨"/tmp/z.sqlite", true, true, "", false⟩
    (fun _ _ => .error "db locked") emptyFS "/st" ["K"] "/tmp/z.sqlite"
    rfl (by decide)).1

/-- C10. Metadata joiner short-circuit: with an empty identifier list the
lookup returns the empty mapping and an empty effect trace — no snapshot is
created, no database file opened, nothing unlinked. -/
theorem empty_keys_short_circuit (se : SnapEnv)
    (rq : String → List String → Except String (List SqlRow)) (fs : FS)
    (sd : String) (keys : List String) (h : keys = []) :
    loadAttachmentMeta se rq fs sd keys = (.ok [], []) := by
  subst h
  rfl

/-- Witness for C10 at a concrete environment. -/
theorem empty_keys_short_circuit_witness :
    loadAttachmentMeta ⟨"/tmp/z.sqlite", true, true, "", false⟩
      (fun _ _ => .ok []) emptyFS "/st" [] = (.ok [], []) :=
  empty_keys_short_circuit ⟨"/tmp/z.sqlite", true, true, "", false⟩
    (fun _ _ => .ok []) emptyFS "/st" [] rfl

end ZSearch
